import Mathlib

/-!
Shallow embedding of the unimed puppeteer batch scraper.

The repository contains four variant scripts of the same pipeline:
variant A (`unimed-scraper.js`, first script: retries, batched browser
restarts), variant B (`unimed-scraper.js`, second script: plain loop),
variant C (`part_000`, first script: image dedup/normalisation and
error logging) and variant D (`part_000`, second script: retries,
batching, HTML-table section rendering and id derivation).

URLs handled by the image pipeline are modelled as `List Char` so that
substring (`includes`), prefix (`startsWith`) and split operations of
JavaScript strings become list operations; other strings stay `String`.
-/

namespace Scraper

/-- JavaScript `s.includes(pat)` on strings modelled as char lists. -/
def jsIncludes (pat s : List Char) : Bool :=
  decide (pat <:+: s)

/-- The unresolved size-placeholder token rejected by `addValidImageUrl`. -/
def placeholderTok : List Char := "\x7bwidth\x7d".toList

/-- JavaScript `imgSrc.startsWith('http')`. -/
def startsWithHttp (s : List Char) : Bool :=
  "http".toList.isPrefixOf s

/-- Variant C: `imgSrc.startsWith('http') ? imgSrc : 'https:' + imgSrc`. -/
def normalizeProto (s : List Char) : List Char :=
  if startsWithHttp s then s else "https:".toList ++ s

/-- Variant C: `fullUrl.split('?')[0]` — everything before the first `?`. -/
def stripQuery (s : List Char) : List Char :=
  s.takeWhile (fun c => c ≠ '?')

/-- The guard and normalisation inside variant C's `addValidImageUrl`:
`if (imgSrc && !imgSrc.includes('{width}'))` (an empty or absent attribute
is falsy), then protocol normalisation followed by query stripping. -/
def validNorm (src : List Char) : Option (List Char) :=
  if src.isEmpty || jsIncludes placeholderTok src then none
  else some (stripQuery (normalizeProto src))

/-- Variant C's `addValidImageUrl` acting on the `imageUrls` Set, modelled
as an insertion-ordered duplicate-free list (a JavaScript `Set` keeps
first-insertion order and ignores re-insertions). -/
def addValidImageUrl (acc : List (List Char)) (src : List Char) : List (List Char) :=
  match validNorm src with
  | none => acc
  | some u => if u ∈ acc then acc else acc ++ [u]

/-- Variant C's three graduated image sources: the primary slideshow's
`data-original-src` values, then (only when the set is still empty) the
fallback gallery's `src` values, then the lazily-loaded `data-src`
values; finally `Array.from(imageUrls)`. -/
def collectImages (primary fallback lazy : List (List Char)) : List (List Char) :=
  let s1 := primary.foldl addValidImageUrl []
  let s2 := if s1.isEmpty then fallback.foldl addValidImageUrl s1 else s1
  lazy.foldl addValidImageUrl s2

/-- The processing-order sequence of normalised valid candidates that the
three graduated stages feed to the set, used to state that `collectImages`
is its first-seen deduplication. -/
def processedSeq (primary fallback lazy : List (List Char)) : List (List Char) :=
  primary.filterMap validNorm ++
    (if (primary.filterMap validNorm).isEmpty then fallback.filterMap validNorm else []) ++
    lazy.filterMap validNorm

/-- One Set insertion: a value already present is ignored (keeping its
original position), a new value is appended last. -/
def insertNew (acc : List (List Char)) (u : List Char) : List (List Char) :=
  if u ∈ acc then acc else acc ++ [u]

/-- First-seen-order deduplication of a sequence, following the spec's
words: each url is kept at the position of its first occurrence and later
occurrences are dropped. -/
def dedupFirstSeen (l : List (List Char)) : List (List Char) :=
  l.foldl insertNew []

/-- Variant A's image extraction: `if (imgSrc) data.images.push('https:' + imgSrc)`
for each `data-original-src` value, with no placeholder filter, no query
stripping and no deduplication. -/
def imagesA (srcs : List (List Char)) : List (List Char) :=
  srcs.foldl (fun acc s => if s.isEmpty then acc else acc ++ ["https:".toList ++ s]) []

/-- JavaScript `String.prototype.trim` modelled on char lists. -/
def jsTrim (s : List Char) : List Char :=
  ((s.dropWhile Char.isWhitespace).reverse.dropWhile Char.isWhitespace).reverse

/-- JavaScript `toLowerCase` modelled on char lists. -/
def jsLower (s : List Char) : List Char := s.map Char.toLower

/-- JavaScript `replace(/ /g, '_')`: every space becomes an underscore. -/
def jsUnderscore (s : List Char) : List Char :=
  s.map (fun c => if c = ' ' then '_' else c)

/-- JavaScript `replace(c, '')` with a one-character pattern: removes only
the first occurrence. -/
def removeFirst (c : Char) : List Char → List Char
  | [] => []
  | x :: xs => if x = c then xs else x :: removeFirst c xs

/-- JavaScript `s.includes(pat)` on `String`. -/
def jsIncludesStr (s pat : String) : Bool := jsIncludes pat.toList s.toList

/-- Variant A's heading normalisation:
`rows[0].innerText.trim().replace(':', '').toLowerCase().replace(/ /g, '_')`. -/
def normalizeHeading (s : String) : String :=
  ⟨jsUnderscore (jsLower (removeFirst ':' (jsTrim s.toList)))⟩

/-- Variant A's row-key normalisation:
`cells[0].innerText.trim().toLowerCase().replace(/ /g, '_')`. -/
def normalizeKey (s : String) : String :=
  ⟨jsUnderscore (jsLower (jsTrim s.toList))⟩

/-- JavaScript `trim` on `String`, used for cell values. -/
def jsTrimStr (s : String) : String := ⟨jsTrim s.toList⟩

/-- The three `includes`-based substring checks that rename a normalised
heading to one of the three section keys; a heading matching none of them
is left unchanged (the JavaScript keeps `sectionName` as the raw
normalised heading). -/
def resolveSection (raw : String) : String :=
  if jsIncludesStr raw "oem_part_number_cross_references" then "oem_reference"
  else if jsIncludesStr raw "compatibility" then "compatibility"
  else if jsIncludesStr raw "technical_specifications" then "technical_specifications"
  else raw

/-- One `tr` of a description table: whether `querySelector('p strong')`
matches in it, its `innerText`, and the `innerText` of its `td` cells. -/
structure Row where
  hasStrong : Bool
  innerText : String
  cells : List String

/-- The `sectionName` computed for a table: from the first row only when
that row contains an emphasised label, empty otherwise. -/
def sectionKeyFor (rows : List Row) : String :=
  match rows with
  | [] => ""
  | r0 :: _ => if r0.hasStrong then resolveSection (normalizeHeading r0.innerText) else ""

/-- JavaScript object property assignment `m[key] = value` on a string-keyed
mapping: overwriting keeps the key's original position, a new key is
appended last. -/
def upsert (m : List (String × String)) (k v : String) : List (String × String) :=
  if m.any (fun p => p.1 == k) then
    m.map (fun p => if p.1 == k then (k, v) else p)
  else m ++ [(k, v)]

/-- The three section mappings of the extracted `data` object. -/
structure Sections where
  oem_reference : List (String × String)
  compatibility : List (String × String)
  technical_specifications : List (String × String)
deriving DecidableEq

def emptySections : Sections := ⟨[], [], []⟩

/-- The guarded write `if (sectionName && data[sectionName]) data[sectionName][key] = value`.
Only the three section keys reach a key-value mapping of the returned
record: for any other non-empty `sectionName` the JavaScript lookup
`data[sectionName]` is either undefined or falsy (`product_name`,
`part_number` while empty), or the assignment lands on a value whose extra
properties are dropped when `page.evaluate` serialises the result (the
`images` array, a non-empty string primitive), so the produced record is
unchanged. -/
def writeSection (s : Sections) (name key value : String) : Sections :=
  if name = "oem_reference" then
    ⟨upsert s.oem_reference key value, s.compatibility, s.technical_specifications⟩
  else if name = "compatibility" then
    ⟨s.oem_reference, upsert s.compatibility key value, s.technical_specifications⟩
  else if name = "technical_specifications" then
    ⟨s.oem_reference, s.compatibility, upsert s.technical_specifications key value⟩
  else s

/-- One iteration of variant A's row loop: only rows with exactly two
cells contribute, the key normalised, the value merely trimmed. -/
def processRow (name : String) (s : Sections) (r : Row) : Sections :=
  match r.cells with
  | [c0, c1] => writeSection s name (normalizeKey c0) (jsTrimStr c1)
  | _ => s

/-- Variant A's per-table processing: the section name is fixed from the
first row, then rows `1..` are folded through the guarded write. -/
def processTable (s : Sections) (rows : List Row) : Sections :=
  (rows.drop 1).foldl (processRow (sectionKeyFor rows)) s

/-- All tables of the description region, processed in order. -/
def extractSections (tables : List (List Row)) : Sections :=
  tables.foldl processTable emptySections

/-- The extracted `data` object: name, part number, images and the three
section mappings, plus the `scrape_date` key that variant C adds after
extraction (absent in the other variants, hence optional). -/
structure ProductData where
  product_name : String
  part_number : String
  images : List (List Char)
  oem_reference : List (String × String)
  compatibility : List (String × String)
  technical_specifications : List (String × String)
  scrape_date : Option String

/-- `RETRY_LIMIT = 3` of variants A and D. -/
def RETRY_LIMIT : Nat := 3

/-- `DELAY_MS = 2000`, also the retry backoff `delay(2000)`. -/
def DELAY_MS : Nat := 2000

/-- `BATCH_SIZE = 50` of variants A and D. -/
def BATCH_SIZE : Nat := 50

/-- Variant A's `while (attempts < RETRY_LIMIT)` retry loop of
`scrapeProduct`, with the outcome of the k-th attempt (navigation,
content wait and extraction together) supplied by the oracle `att`:
`some d` when the attempt completes extraction with record `d`, `none`
when it throws.  Returns the result (null on exhaustion), the number of
attempts performed, and the list of `delay(2000)` waits observed, one
after each failed attempt. -/
def scrapeLoop (att : Nat → Option ProductData) (attempts : Nat) :
    Option ProductData × Nat × List Nat :=
  if attempts < RETRY_LIMIT then
    match att attempts with
    | some d => (some d, 1, [])
    | none =>
      let r := scrapeLoop att (attempts + 1)
      (r.1, r.2.1 + 1, DELAY_MS :: r.2.2)
  else (none, 0, [])
termination_by RETRY_LIMIT - attempts
decreasing_by simp_wf; omega

/-- Variant A's `scrapeProduct(page, url)`: the loop starts at attempt 0. -/
def scrapeProduct (att : Nat → Option ProductData) : Option ProductData × Nat × List Nat :=
  scrapeLoop att 0

/-- What one orchestrator iteration observes for a target: `scrapeProduct`
returned a record, returned null, or something threw inside the `try`. -/
inductive StepOutcome where
  | success : ProductData → StepOutcome
  | failedNull : StepOutcome
  | thrown : String → StepOutcome

/-- The mutable run state of variant A's main loop: the two output
collections plus the indices at which the browser was restarted. -/
structure BatchState where
  scrapedData : List (String × ProductData)
  failedLinks : List String
  recycles : List Nat

/-- The batch-boundary check `if (i % BATCH_SIZE === 0 && i !== 0)` that
closes and relaunches the browser; recorded as a recycle event. -/
def recycleCheck (i : Nat) (st : BatchState) : BatchState :=
  if i % BATCH_SIZE = 0 ∧ i ≠ 0 then
    ⟨st.scrapedData, st.failedLinks, st.recycles ++ [i]⟩
  else st

/-- Variant A's `for (let i = 0; ...)` main loop from index `i`: recycle
at batch boundaries, scrape, push `{url, data}` on success and the bare
url on null or thrown error. -/
def runFrom (step : Nat → String → StepOutcome) : Nat → List String → BatchState → BatchState
  | _, [], st => st
  | i, url :: rest, st =>
    let st1 := recycleCheck i st
    let st2 := match step i url with
      | .success d => ⟨st1.scrapedData ++ [(url, d)], st1.failedLinks, st1.recycles⟩
      | .failedNull => ⟨st1.scrapedData, st1.failedLinks ++ [url], st1.recycles⟩
      | .thrown _ => ⟨st1.scrapedData, st1.failedLinks ++ [url], st1.recycles⟩
    runFrom step (i + 1) rest st2

/-- A whole run of variant A's main loop over the target list. -/
def runBatch (step : Nat → String → StepOutcome) (urls : List String) : BatchState :=
  runFrom step 0 urls ⟨[], [], []⟩

/-- Selector for the succeeded partition: an enumerated target lands in
`scrapedData` as `{url, data}` exactly when its step succeeds. -/
def succOf (step : Nat → String → StepOutcome) (p : Nat × String) :
    Option (String × ProductData) :=
  match step p.1 p.2 with
  | .success d => some (p.2, d)
  | _ => none

/-- Selector for the failed partition: an enumerated target lands in
`failedLinks` exactly when its step does not succeed. -/
def failOf (step : Nat → String → StepOutcome) (p : Nat × String) : Option String :=
  match step p.1 p.2 with
  | .success _ => none
  | _ => some p.2

/-- Content of one output artifact; the JSON encoding mechanics are out
of scope, so the written collection itself is the content. -/
inductive ArtifactContent where
  | results : List (String × ProductData) → ArtifactContent
  | failedList : List String → ArtifactContent

/-- One `fs.writeFileSync` call. -/
structure FileWrite where
  path : String
  content : ArtifactContent

/-- Variant A's success-artifact name `results/products_${currentDate}.json`. -/
def resultsPath (date : String) : String := "results/products_" ++ date ++ ".json"

/-- Variant A's failure-artifact name `failed/failed_links_${currentDate}.json`. -/
def failedLinksPath (date : String) : String := "failed/failed_links_" ++ date ++ ".json"

/-- Variant A's output phase: the scraped data is always written; the
failed links only `if (failedLinks.length > 0)`. -/
def persistResults (date : String) (scrapedData : List (String × ProductData))
    (failedLinks : List String) : List FileWrite :=
  ⟨resultsPath date, .results scrapedData⟩ ::
    (if failedLinks.length > 0 then [⟨failedLinksPath date, .failedList failedLinks⟩] else [])

/-- A complete run: main loop, then the output phase on its collections. -/
def runAll (step : Nat → String → StepOutcome) (urls : List String) (date : String) :
    List FileWrite :=
  persistResults date (runBatch step urls).scrapedData (runBatch step urls).failedLinks

/-- Variant C's per-target scrape outcome before the post-processing in
`scrapeProduct`: extraction returned a data object, or the try block threw. -/
inductive PageOutcome where
  | ok : ProductData → PageOutcome
  | err : String → PageOutcome

/-- Variant C's date-partitioned diagnostic log file
`logs/image_scraping_errors_${formattedDate}.log`. -/
def logFileC (date : String) : String :=
  "logs/image_scraping_errors_" ++ date ++ ".log"

/-- Variant C's `logErrorToFile` entry
`${formattedDate} - URL: ${url} - Error: ${errorMessage}\n`. -/
def logLineC (date url msg : String) : String :=
  date ++ " - URL: " ++ url ++ " - Error: " ++ msg ++ "\n"

/-- Adds variant C's `productData.scrape_date = formattedDate`. -/
def setScrapeDate (d : ProductData) (date : String) : ProductData :=
  ⟨d.product_name, d.part_number, d.images, d.oem_reference, d.compatibility,
    d.technical_specifications, some date⟩

/-- Result of variant C's `scrapeProduct`: the returned value and the log
appends it performed. -/
structure ScrapeCResult where
  result : Option ProductData
  logs : List (String × String)

/-- Variant C's `scrapeProduct`: on an extracted data object, log a
missing-images diagnostic when `images.length === 0`, stamp the scrape
date and return the record; on a thrown error, log it and return null. -/
def scrapeProductC (date url : String) : PageOutcome → ScrapeCResult
  | .err msg =>
    ⟨none, [(logFileC date, logLineC date url ("Error scraping product: " ++ msg))]⟩
  | .ok d =>
    ⟨some (setScrapeDate d date),
      if d.images.isEmpty then
        [(logFileC date, logLineC date url "No images found for this product")]
      else []⟩

/-- Variant C's `for (let product of productLinks)` loop: a non-null
return is pushed to `scrapedData`, a null return pushes
`{url, timestamp}` to `failedLinks`; log appends accumulate in order.
Returns (scrapedData, failedLinks, log appends). -/
def runC (outcome : String → PageOutcome) (date : String) :
    List String →
      List (String × ProductData) × List (String × String) × List (String × String)
  | [] => ([], [], [])
  | url :: rest =>
    let r := scrapeProductC date url (outcome url)
    let t := runC outcome date rest
    match r.result with
    | some d => ((url, d) :: t.1, t.2.1, r.logs ++ t.2.2)
    | none => (t.1, (url, date) :: t.2.1, r.logs ++ t.2.2)

/-- The `/products/` marker of variant D's id derivation. -/
def productsMarker : List Char := "/products/".toList

/-- First occurrence split: `some (before, after)` when the separator
occurs, scanning left to right, `none` otherwise. -/
def splitFirst (sep : List Char) : List Char → Option (List Char × List Char)
  | [] => if sep.isPrefixOf ([] : List Char) then some ([], []) else none
  | c :: cs =>
    if sep.isPrefixOf (c :: cs) then some ([], (c :: cs).drop sep.length)
    else match splitFirst sep cs with
      | some (pre, post) => some (c :: pre, post)
      | none => none

/-- Variant D's `url.split('/products/')[1]`: the second element of the
JavaScript split array — the text between the first and second marker
occurrence (or to the end) — and `undefined` (`none`) when the url does
not contain the marker at all. -/
def idOf (url : List Char) : Option (List Char) :=
  match splitFirst productsMarker url with
  | none => none
  | some (_, post) =>
    match splitFirst productsMarker post with
    | none => some post
    | some (mid, _) => some mid

/-- Variant D's run state: succeeded entries are `{url, id, data}`. -/
structure BatchStateD where
  scrapedData : List (List Char × Option (List Char) × ProductData)
  failedLinks : List (List Char)
  recycles : List Nat

/-- Variant D's main loop from index `i`: as variant A, but the success
push derives `id = url.split('/products/')[1]`. -/
def runDFrom (step : Nat → List Char → StepOutcome) :
    Nat → List (List Char) → BatchStateD → BatchStateD
  | _, [], st => st
  | i, url :: rest, st =>
    let st1 : BatchStateD :=
      if i % BATCH_SIZE = 0 ∧ i ≠ 0 then
        ⟨st.scrapedData, st.failedLinks, st.recycles ++ [i]⟩
      else st
    let st2 : BatchStateD := match step i url with
      | .success d => ⟨st1.scrapedData ++ [(url, idOf url, d)], st1.failedLinks, st1.recycles⟩
      | .failedNull => ⟨st1.scrapedData, st1.failedLinks ++ [url], st1.recycles⟩
      | .thrown _ => ⟨st1.scrapedData, st1.failedLinks ++ [url], st1.recycles⟩
    runDFrom step (i + 1) rest st2

/-- A whole run of variant D's main loop. -/
def runD (step : Nat → List Char → StepOutcome) (urls : List (List Char)) : BatchStateD :=
  runDFrom step 0 urls ⟨[], [], []⟩

/-- A record with every field empty, for concrete instantiations. -/
def sampleProduct : ProductData := ⟨"", "", [], [], [], [], none⟩

/-- An image source carrying both a duplicate risk and an unresolved
size placeholder, fed twice to variant A's extraction. -/
def dupSrc : List Char := "//cdn/a_\x7bwidth\x7d.jpg?v=1".toList

/-- A table whose first-row heading normalises verbatim to the section
key `oem_reference` while matching none of the three known substrings. -/
def unresolvedHeadingRows : List Row :=
  [⟨true, "OEM Reference", []⟩, ⟨false, "", ["Alpha Beta", "V1"]⟩]

/-- The spec's OEM scenario table: an emphasised heading row followed by
one two-cell row. -/
def oemScenarioRows : List Row :=
  [⟨true, "OEM Part Number Cross References", []⟩, ⟨false, "", ["ABC-100", "XYZ-9"]⟩]

/-- One `tr` as variant D reads it: the text of its `p strong` tag when
present, and the `innerText` of its `td` cells. -/
structure RowD where
  strongText : Option String
  cells : List String

/-- Variant D's heading normalisation, read from the strong tag itself:
`firstRowStrongTag.innerText.trim().toLowerCase().replace(/ /g, '_')`
(no colon removal, unlike variant A). -/
def normalizeHeadingD (s : String) : String :=
  ⟨jsUnderscore (jsLower (jsTrim s.toList))⟩

/-- Variant D's `sectionName` for a table: from the first row's strong
tag when present, empty otherwise, then the three substring checks. -/
def sectionKeyForD (rows : List RowD) : String :=
  match rows with
  | [] => ""
  | r0 :: _ =>
    match r0.strongText with
    | some t => resolveSection (normalizeHeadingD t)
    | none => ""

/-- One iteration of variant D's `rows.forEach` body: rows with exactly
two cells contribute `tempData[sectionName][key] = value` with the key
and value only trimmed (`value || ''` keeps an empty trimmed value), and
only when the key is non-empty. -/
def processRowD (name : String) (s : Sections) (r : RowD) : Sections :=
  match r.cells with
  | [c0, c1] =>
    if jsTrimStr c0 ≠ "" then writeSection s name (jsTrimStr c0) (jsTrimStr c1) else s
  | _ => s

/-- Variant D's per-table processing: the guard
`if (!sectionName || !tempData[sectionName]) return;` skips the whole
table unless the section name is one of `tempData`'s three keys;
otherwise all rows (including the heading row) run through the body. -/
def processTableD (s : Sections) (rows : List RowD) : Sections :=
  let name := sectionKeyForD rows
  if name = "oem_reference" ∨ name = "compatibility" ∨ name = "technical_specifications" then
    rows.foldl (processRowD name) s
  else s

/-- Variant D's `tempData` after all tables of the description region. -/
def extractSectionsD (tables : List (List RowD)) : Sections :=
  tables.foldl processTableD emptySections

/-- Variant D's `createTableHTML`: an empty mapping becomes the empty
string, otherwise the entries are rendered as rows of a serialised HTML
table. -/
def createTableHTML (m : List (String × String)) : String :=
  if m.isEmpty then ""
  else
    (m.foldl
      (fun acc p => acc ++ "<tr><td>" ++ p.1 ++ "</td><td>" ++ p.2 ++ "</td></tr>")
      "<table border=\"1\">") ++ "</table>"

/-- The spec's OEM scenario table as variant D reads it. -/
def oemScenarioRowsD : List RowD :=
  [⟨some "OEM Part Number Cross References", []⟩, ⟨none, ["ABC-100", "XYZ-9"]⟩]

theorem scrapeLoop_stop (att : Nat → Option ProductData) (a : Nat)
    (h : ¬ a < RETRY_LIMIT) : scrapeLoop att a = (none, 0, []) := by
  rw [scrapeLoop]; simp [h]

theorem scrapeLoop_hit (att : Nat → Option ProductData) (a : Nat) (d : ProductData)
    (ha : a < RETRY_LIMIT) (h : att a = some d) : scrapeLoop att a = (some d, 1, []) := by
  rw [scrapeLoop]; simp [ha, h]

theorem scrapeLoop_miss (att : Nat → Option ProductData) (a : Nat)
    (ha : a < RETRY_LIMIT) (h : att a = none) :
    scrapeLoop att a =
      ((scrapeLoop att (a + 1)).1, (scrapeLoop att (a + 1)).2.1 + 1,
        DELAY_MS :: (scrapeLoop att (a + 1)).2.2) := by
  rw [scrapeLoop]; simp [ha, h]

/-- Claim C2: with every attempt failing, `scrapeProduct` performs exactly
`RETRY_LIMIT = 3` sequential attempts with a 2000 ms delay after each
failed attempt (so consecutive attempts are separated by 2000 ms) and
returns null; and the first attempt that completes extraction returns its
record immediately, after `k + 1` attempts and `k` delays. -/
theorem scrapeProduct_retry (att : Nat → Option ProductData) :
    ((∀ k, att k = none) →
      scrapeProduct att = (none, RETRY_LIMIT, [DELAY_MS, DELAY_MS, DELAY_MS])) ∧
    (∀ k d, k < RETRY_LIMIT → att k = some d → (∀ j, j < k → att j = none) →
      scrapeProduct att = (some d, k + 1, List.replicate k DELAY_MS)) := by
  constructor
  · intro h
    have e3 : scrapeLoop att 3 = (none, 0, []) :=
      scrapeLoop_stop att 3 (by norm_num [RETRY_LIMIT])
    have e2 : scrapeLoop att 2 = (none, 1, [DELAY_MS]) := by
      rw [scrapeLoop_miss att 2 (by norm_num [RETRY_LIMIT]) (h 2), e3]
    have e1 : scrapeLoop att 1 = (none, 2, [DELAY_MS, DELAY_MS]) := by
      rw [scrapeLoop_miss att 1 (by norm_num [RETRY_LIMIT]) (h 1), e2]
    have e0 : scrapeLoop att 0 = (none, 3, [DELAY_MS, DELAY_MS, DELAY_MS]) := by
      rw [scrapeLoop_miss att 0 (by norm_num [RETRY_LIMIT]) (h 0), e1]
    simpa [scrapeProduct, RETRY_LIMIT] using e0
  · intro k d hk hd hj
    have hk3 : k < 3 := hk
    interval_cases k
    · simpa [scrapeProduct] using scrapeLoop_hit att 0 d (by norm_num [RETRY_LIMIT]) hd
    · have e1 := scrapeLoop_hit att 1 d (by norm_num [RETRY_LIMIT]) hd
      have e0 := scrapeLoop_miss att 0 (by norm_num [RETRY_LIMIT]) (hj 0 (by norm_num))
      rw [scrapeProduct, e0, e1]
      simp [List.replicate]
    · have e2 := scrapeLoop_hit att 2 d (by norm_num [RETRY_LIMIT]) hd
      have e1 := scrapeLoop_miss att 1 (by norm_num [RETRY_LIMIT]) (hj 1 (by norm_num))
      have e0 := scrapeLoop_miss att 0 (by norm_num [RETRY_LIMIT]) (hj 0 (by norm_num))
      rw [scrapeProduct, e0, e1, e2]
      simp [List.replicate]

/-- Witness for claim C2: an always-failing oracle yields null after 3
attempts and 3 waits of 2000 ms; an immediately-succeeding oracle returns
after 1 attempt and no wait. -/
theorem scrapeProduct_retry_witness :
    scrapeProduct (fun _ => none) = (none, 3, [2000, 2000, 2000]) ∧
    scrapeProduct (fun _ => some sampleProduct) = (some sampleProduct, 1, []) := by
  constructor
  · exact (scrapeProduct_retry (fun _ => none)).1 (fun _ => rfl)
  · exact (scrapeProduct_retry (fun _ => some sampleProduct)).2 0 sampleProduct
      (by norm_num [RETRY_LIMIT]) rfl (fun j hj => absurd hj (by omega))

theorem runFrom_eq (step : Nat → String → StepOutcome) :
    ∀ (urls : List String) (i : Nat) (st : BatchState),
      runFrom step i urls st =
        ⟨st.scrapedData ++ (urls.enumFrom i).filterMap (succOf step),
          st.failedLinks ++ (urls.enumFrom i).filterMap (failOf step),
          st.recycles ++ (List.range' i urls.length).filter
            (fun j => decide (j % BATCH_SIZE = 0 ∧ j ≠ 0))⟩ := by
  intro urls
  induction urls with
  | nil => intro i st; simp [runFrom]
  | cons url rest ih =>
    intro i st
    simp only [runFrom]
    rw [ih]
    cases hstep : step i url <;>
      by_cases hrec : i % BATCH_SIZE = 0 ∧ i ≠ 0 <;>
        simp [recycleCheck, hrec, succOf, failOf, hstep, List.enumFrom_cons,
          List.filterMap_cons, List.length_cons, List.range'_succ, List.filter_cons,
          List.append_assoc]

theorem filterMap_succ_fail_length (step : Nat → String → StepOutcome) :
    ∀ l : List (Nat × String),
      (l.filterMap (succOf step)).length + (l.filterMap (failOf step)).length = l.length
  | [] => by simp
  | p :: l => by
    have ih := filterMap_succ_fail_length step l
    cases hstep : step p.1 p.2 <;>
      simp [succOf, failOf, hstep, List.filterMap_cons] <;> omega

/-- Claim C1: each enumerated target of a run lands in the succeeded
collection exactly when its step succeeds and in the failed collection
exactly otherwise (on a null return or a thrown error), so every target
is in exactly one of the two partitions — never both, never neither —
and the partition sizes sum to the input length. -/
theorem runBatch_partition (step : Nat → String → StepOutcome) (urls : List String) :
    (runBatch step urls).scrapedData = urls.enum.filterMap (succOf step) ∧
    (runBatch step urls).failedLinks = urls.enum.filterMap (failOf step) ∧
    (runBatch step urls).scrapedData.length + (runBatch step urls).failedLinks.length
      = urls.length := by
  rw [runBatch, runFrom_eq]
  refine ⟨by simp [List.enum], by simp [List.enum], ?_⟩
  have h := filterMap_succ_fail_length step urls.enum
  simpa [List.enum, List.enum_length] using h

/-- Claim C3: a run recycles the render session exactly at the indices
that are nonzero multiples of `BATCH_SIZE = 50`, in increasing order; in
particular a 120-target run recycles exactly at indices 50 and 100 and
never at index 0. -/
theorem runBatch_recycles (step : Nat → String → StepOutcome) (urls : List String) :
    (runBatch step urls).recycles =
      (List.range urls.length).filter (fun j => decide (j % BATCH_SIZE = 0 ∧ j ≠ 0)) ∧
    (runBatch step (List.replicate 120 "url")).recycles = [50, 100] := by
  constructor
  · rw [runBatch, runFrom_eq]
    simp [List.range_eq_range']
  · rw [runBatch, runFrom_eq]
    simp only [List.nil_append, List.length_replicate]
    decide

theorem enumFrom_filterMap_sublist (f : Nat × String → Option String)
    (hf : ∀ p y, f p = some y → y = p.2) :
    ∀ (l : List String) (i : Nat), List.Sublist ((l.enumFrom i).filterMap f) l
  | [], _ => by simp
  | url :: rest, i => by
    rw [List.enumFrom_cons, List.filterMap_cons]
    cases hfp : f (i, url) with
    | none => exact .cons url (enumFrom_filterMap_sublist f hf rest (i + 1))
    | some y =>
      have hy : y = url := hf _ _ hfp
      subst hy
      exact .cons₂ y (enumFrom_filterMap_sublist f hf rest (i + 1))

/-- Claim C9: a run preserves input order in both outputs — the urls of
the succeeded entries form a sublist of the input list, and so do the
failed urls, so each partition lists its targets in input order. -/
theorem runBatch_preserves_order (step : Nat → String → StepOutcome) (urls : List String) :
    List.Sublist ((runBatch step urls).scrapedData.map Prod.fst) urls ∧
    List.Sublist (runBatch step urls).failedLinks urls := by
  rw [runBatch, runFrom_eq]
  dsimp only
  simp only [List.nil_append]
  constructor
  · rw [List.map_filterMap]
    refine enumFrom_filterMap_sublist _ ?_ urls 0
    intro p y hy
    cases hstep : step p.1 p.2 <;> simp [succOf, hstep] at hy
    exact hy.symm
  · refine enumFrom_filterMap_sublist _ ?_ urls 0
    intro p y hy
    cases hstep : step p.1 p.2 <;> simp [failOf, hstep] at hy
    all_goals exact hy.symm

/-- Claim C7: every run that reaches the output phase writes the
succeeded-record artifact unconditionally, and writes the failed-target
artifact exactly when at least one target failed; both artifact names are
a deterministic function of the run date. -/
theorem runAll_artifacts (step : Nat → String → StepOutcome) (urls : List String)
    (date : String) :
    (⟨resultsPath date, .results (runBatch step urls).scrapedData⟩ : FileWrite)
        ∈ runAll step urls date ∧
    ((⟨failedLinksPath date, .failedList (runBatch step urls).failedLinks⟩ : FileWrite)
        ∈ runAll step urls date ↔ (runBatch step urls).failedLinks ≠ []) := by
  unfold runAll persistResults
  constructor
  · exact List.mem_cons_self _ _
  · by_cases h : (runBatch step urls).failedLinks = []
    · simp [h]
    · have hl : 0 < (runBatch step urls).failedLinks.length := List.length_pos.mpr h
      simp [h, hl]

/-- Witness for claim C7: in a one-target run whose only target fails,
the failed-links artifact is among the writes. -/
theorem runAll_artifacts_witness :
    (⟨failedLinksPath "2026-10-11", .failedList ["https://shop.example/p1"]⟩ : FileWrite)
      ∈ runAll (fun _ _ => .failedNull) ["https://shop.example/p1"] "2026-10-11" := by
  exact (runAll_artifacts (fun _ _ => .failedNull) ["https://shop.example/p1"]
    "2026-10-11").2.mpr (by decide)

/-- Claim C8: when extraction completes with an empty images list, a
diagnostic line containing the target url is appended to the
date-partitioned log, the record (stamped with the scrape date) is still
returned, and a run classifies the target as a success: it is pushed to
the succeeded collection and not to the failed one. -/
theorem scrapeProductC_missing_images (date url : String) (d : ProductData)
    (h : d.images = []) :
    (∃ pre post, (logFileC date, pre ++ url ++ post) ∈ (scrapeProductC date url (.ok d)).logs) ∧
    (scrapeProductC date url (.ok d)).result = some (setScrapeDate d date) ∧
    runC (fun _ => .ok d) date [url] =
      ([(url, setScrapeDate d date)], [], (scrapeProductC date url (.ok d)).logs) := by
  have himg : d.images.isEmpty = true := by simp [h]
  refine ⟨⟨date ++ " - URL: ", " - Error: " ++ "No images found for this product" ++ "\n", ?_⟩,
    ?_, ?_⟩
  · simp [scrapeProductC, himg, logLineC, String.append_assoc]
  · simp [scrapeProductC]
  · simp [runC, scrapeProductC, himg]

/-- Witness for claim C8: a concrete record without images is still
returned as a success, date-stamped. -/
theorem scrapeProductC_missing_images_witness :
    (scrapeProductC "2026-10-11" "https://shop.example/p1" (.ok sampleProduct)).result
      = some (setScrapeDate sampleProduct "2026-10-11") := by
  exact (scrapeProductC_missing_images "2026-10-11" "https://shop.example/p1"
    sampleProduct rfl).2.1

theorem splitFirst_of_not_infix :
    ∀ (sep s : List Char), sep ≠ [] → ¬ sep <:+: s → splitFirst sep s = none
  | sep, [], hne, _ => by
    have hp : sep.isPrefixOf ([] : List Char) = false := by
      rw [Bool.eq_false_iff]
      intro hb
      exact hne ( List.prefix_nil.mp (by simpa using hb))
    simp [splitFirst, hp]
  | sep, c :: cs, hne, h => by
    have hncs : ¬ sep <:+: cs := fun hi => h (( List.infix_cons_iff).mpr (Or.inr hi))
    have hnp : sep.isPrefixOf (c :: cs) = false := by
      rw [Bool.eq_false_iff]
      intro hb
      exact h (List.IsPrefix.isInfix (by simpa using hb))
    have ih := splitFirst_of_not_infix sep cs hne hncs
    simp [splitFirst, hnp, ih]

/-- Claim C10: for a url without the `/products/` marker, the id
derivation `url.split('/products/')[1]` is `undefined` (`none`), and a
successful target with such a url is still pushed to the succeeded
collection, with an absent id, rather than becoming an error or a
failure entry. -/
theorem idOf_no_marker (url : List Char) (d : ProductData)
    (h : ¬ productsMarker <:+: url) :
    idOf url = none ∧
    runD (fun _ _ => .success d) [url] = ⟨[(url, none, d)], [], []⟩ := by
  have hs : splitFirst productsMarker url = none :=
    splitFirst_of_not_infix productsMarker url (by decide) h
  have hid : idOf url = none := by simp [idOf, hs]
  refine ⟨hid, ?_⟩
  simp [runD, runDFrom, hid]

/-- Witness for claim C10: a concrete marker-free url yields an absent id. -/
theorem idOf_no_marker_witness :
    idOf "https://shop.example/item/widget".toList = none := by
  exact (idOf_no_marker "https://shop.example/item/widget".toList sampleProduct
    (by decide)).1

theorem mem_foldl_addValid :
    ∀ (l acc : List (List Char)) (u : List Char),
      u ∈ l.foldl addValidImageUrl acc ↔ u ∈ acc ∨ u ∈ l.filterMap validNorm
  | [], acc, u => by simp
  | x :: xs, acc, u => by
    rw [List.foldl_cons, mem_foldl_addValid xs _ u, List.filterMap_cons]
    cases hv : validNorm x with
    | none => simp [addValidImageUrl, hv]
    | some v =>
      by_cases hmem : v ∈ acc
      · simp only [addValidImageUrl, hv, if_pos hmem, List.mem_cons]
        constructor
        · rintro (h | h)
          · exact Or.inl h
          · exact Or.inr (Or.inr h)
        · rintro (h | h | h)
          · exact Or.inl h
          · exact Or.inl (h ▸ hmem)
          · exact Or.inr h
      · simp only [addValidImageUrl, hv, if_neg hmem, List.mem_append, List.mem_cons,
          List.mem_singleton]
        tauto

theorem nodup_foldl_addValid :
    ∀ (l acc : List (List Char)), acc.Nodup → (l.foldl addValidImageUrl acc).Nodup
  | [], _, h => h
  | x :: xs, acc, h => by
    rw [List.foldl_cons]
    refine nodup_foldl_addValid xs _ ?_
    unfold addValidImageUrl
    cases hv : validNorm x with
    | none => exact h
    | some v =>
      by_cases hmem : v ∈ acc
      · simpa [hmem] using h
      · show (if v ∈ acc then acc else acc ++ [v]).Nodup
        rw [if_neg hmem, List.nodup_append]
        refine ⟨h, List.nodup_singleton v, ?_⟩
        intro a ha hav
        simp only [List.mem_singleton] at hav
        exact hmem (hav ▸ ha)

theorem foldl_addValid_insertNew :
    ∀ (l acc : List (List Char)),
      l.foldl addValidImageUrl acc = (l.filterMap validNorm).foldl insertNew acc
  | [], _ => rfl
  | x :: xs, acc => by
    rw [List.foldl_cons, List.filterMap_cons]
    cases hv : validNorm x with
    | none =>
      rw [show addValidImageUrl acc x = acc from by rw [addValidImageUrl, hv]]
      exact foldl_addValid_insertNew xs acc
    | some v =>
      show List.foldl addValidImageUrl (addValidImageUrl acc x) xs
        = List.foldl insertNew acc (v :: xs.filterMap validNorm)
      rw [List.foldl_cons,
        show addValidImageUrl acc x = insertNew acc v from by rw [addValidImageUrl, hv]; rfl]
      exact foldl_addValid_insertNew xs (insertNew acc v)

theorem foldl_addValid_nil_empty_iff (l : List (List Char)) :
    l.foldl addValidImageUrl [] = [] ↔ l.filterMap validNorm = [] := by
  constructor
  · intro h
    rw [List.eq_nil_iff_forall_not_mem]
    intro u hu
    have : u ∈ l.foldl addValidImageUrl [] := (mem_foldl_addValid l [] u).mpr (Or.inr hu)
    simp [h] at this
  · intro h
    rw [List.eq_nil_iff_forall_not_mem]
    intro u hu
    rcases (mem_foldl_addValid l [] u).mp hu with h' | h'
    · simp at h'
    · rw [h] at h'; simp at h'

theorem not_infix_append_left {pat b : List Char} :
    ∀ a : List Char, pat ≠ [] → (∀ x ∈ a, pat.head? ≠ some x) →
      pat <:+: a ++ b → pat <:+: b
  | [], _, _, h => by simpa using h
  | x :: xs, hne, hhead, h => by
    rw [List.cons_append, List.infix_cons_iff] at h
    rcases h with hp | hi
    · exfalso
      rcases pat with _ | ⟨p, ps⟩
      · exact hne rfl
      · obtain ⟨t, ht⟩ := hp
        rw [List.cons_append] at ht
        have hpx : p = x := (List.cons.injEq _ _ _ _).mp ht |>.1
        exact hhead x (by simp) (by simp [hpx])
    · exact not_infix_append_left xs hne (fun y hy => hhead y (by simp [hy])) hi

theorem validNorm_no_placeholder {src u : List Char} (h : validNorm src = some u) :
    ¬ placeholderTok <:+: u := by
  rw [validNorm] at h
  by_cases hc : (src.isEmpty || jsIncludes placeholderTok src) = true
  · rw [if_pos hc] at h; exact absurd h (by simp)
  · rw [if_neg hc] at h
    have hni : ¬ placeholderTok <:+: src := by
      simp only [Bool.or_eq_true, not_or, jsIncludes] at hc
      simpa using hc.2
    have hu : u = stripQuery (normalizeProto src) := (Option.some.injEq _ _).mp h.symm
    intro hinf
    have h1 : placeholderTok <:+: normalizeProto src := by
      refine hinf.trans ?_
      rw [hu, stripQuery]
      exact List.IsPrefix.isInfix ( List.takeWhile_prefix _)
    rw [normalizeProto] at h1
    by_cases hsw : startsWithHttp src = true
    · rw [if_pos hsw] at h1; exact hni h1
    · rw [if_neg hsw] at h1
      exact hni (not_infix_append_left "https:".toList (by decide) (by decide) h1)

/-- Claim C4 (amended): the deduplicating image pipeline of variant C
produces exactly the first-seen-order deduplication of the
processing-order candidate sequence — so it is duplicate-free (hence no
two entries are equal after query stripping, entries being stored
query-stripped) — and no entry contains the unresolved size-placeholder
token.  (Variant A's plain push performs none of this, see the
counterexample.) -/
theorem collectImages_spec (primary fallback lazy : List (List Char)) :
    collectImages primary fallback lazy = dedupFirstSeen (processedSeq primary fallback lazy) ∧
    (collectImages primary fallback lazy).Nodup ∧
    (∀ u, u ∈ collectImages primary fallback lazy → ¬ placeholderTok <:+: u) := by
  refine ⟨?_, ?_, ?_⟩
  · by_cases hE : (primary.foldl addValidImageUrl []).isEmpty = true
    · have hP : primary.filterMap validNorm = [] :=
        (foldl_addValid_nil_empty_iff primary).mp (List.isEmpty_iff.mp hE)
      have hPE : (primary.filterMap validNorm).isEmpty = true := by simp [hP]
      simp only [collectImages, processedSeq, dedupFirstSeen, if_pos hE, if_pos hPE]
      simp only [List.foldl_append, foldl_addValid_insertNew]
    · have hPE : ¬ (primary.filterMap validNorm).isEmpty = true := by
        intro hb
        exact hE (by
          rw [List.isEmpty_iff] at hb ⊢
          exact (foldl_addValid_nil_empty_iff primary).mpr hb)
      simp only [collectImages, processedSeq, dedupFirstSeen, if_neg hE, if_neg hPE,
        List.append_nil]
      simp only [List.foldl_append, foldl_addValid_insertNew]
  · have h1 : (primary.foldl addValidImageUrl []).Nodup :=
      nodup_foldl_addValid primary [] List.nodup_nil
    simp only [collectImages]
    refine nodup_foldl_addValid lazy _ ?_
    split
    · exact nodup_foldl_addValid fallback _ h1
    · exact h1
  · have key : ∀ (l acc : List (List Char)), (∀ u ∈ acc, ¬ placeholderTok <:+: u) →
        ∀ u ∈ l.foldl addValidImageUrl acc, ¬ placeholderTok <:+: u := by
      intro l acc hacc u hu
      rcases (mem_foldl_addValid l acc u).mp hu with h | h
      · exact hacc u h
      · obtain ⟨src, -, hsrc⟩ := List.mem_filterMap.mp h
        exact validNorm_no_placeholder hsrc
    intro u hu
    simp only [collectImages] at hu
    refine key lazy _ ?_ u hu
    intro v hv
    by_cases hE : (primary.foldl addValidImageUrl []).isEmpty = true
    · rw [if_pos hE] at hv
      exact key fallback _ (key primary [] (by simp)) v hv
    · rw [if_neg hE] at hv
      exact key primary [] (by simp) v hv

/-- Claim C4 counterexample: variant A's image extraction pushes the same
source twice unchanged, so the images list holds two entries that are
equal (hence equal after query stripping) and that retain the unresolved
size placeholder. -/
theorem imagesA_counterexample :
    imagesA [dupSrc, dupSrc] =
      ["https://cdn/a_\x7bwidth\x7d.jpg?v=1".toList,
        "https://cdn/a_\x7bwidth\x7d.jpg?v=1".toList] ∧
    ¬ (imagesA [dupSrc, dupSrc]).Nodup ∧
    placeholderTok <:+: "https://cdn/a_\x7bwidth\x7d.jpg?v=1".toList := by
  refine ⟨by decide, by decide, by decide⟩

/-- Witness for claim C4 (amended): a concrete collected url is free of
the size placeholder. -/
theorem collectImages_spec_witness :
    ¬ placeholderTok <:+: "https://img.example/a.jpg".toList := by
  exact (collectImages_spec ["//img.example/a.jpg?v=1".toList] [] []).2.2 _ (by decide)

theorem foldl_processRow_unknown (name : String)
    (h1 : name ≠ "oem_reference") (h2 : name ≠ "compatibility")
    (h3 : name ≠ "technical_specifications") :
    ∀ (l : List Row) (s : Sections), l.foldl (processRow name) s = s
  | [], _ => rfl
  | r :: l, s => by
    rw [List.foldl_cons]
    have hr : processRow name s r = s := by
      unfold processRow
      split
      · unfold writeSection
        rw [if_neg h1, if_neg h2, if_neg h3]
      · rfl
    rw [hr]
    exact foldl_processRow_unknown name h1 h2 h3 l s

/-- Claim C5 (amended): a table whose computed section name is not
literally one of the three section keys contributes no key-value data —
all its rows are discarded.  The substring resolution maps matching
headings to those keys, but a heading that merely normalises verbatim to
a section key (matching none of the known substrings) also reaches that
section, so substring-resolution failure alone does not suffice — see the
counterexample. -/
theorem processTable_unknown_discards (rows : List Row) (s : Sections)
    (h1 : sectionKeyFor rows ≠ "oem_reference")
    (h2 : sectionKeyFor rows ≠ "compatibility")
    (h3 : sectionKeyFor rows ≠ "technical_specifications") :
    processTable s rows = s := by
  unfold processTable
  exact foldl_processRow_unknown (sectionKeyFor rows) h1 h2 h3 (rows.drop 1) s

/-- Claim C5 counterexample: the heading "OEM Reference" matches none of
the three known substrings — so under the claim its table must contribute
nothing — yet its rows land in the oem_reference section, because the
normalised heading happens to equal that key verbatim. -/
theorem unresolvedHeading_contributes :
    jsIncludesStr (normalizeHeading "OEM Reference") "oem_part_number_cross_references"
        = false ∧
    jsIncludesStr (normalizeHeading "OEM Reference") "compatibility" = false ∧
    jsIncludesStr (normalizeHeading "OEM Reference") "technical_specifications" = false ∧
    (extractSections [unresolvedHeadingRows]).oem_reference = [("alpha_beta", "V1")] := by
  refine ⟨by decide, by decide, by decide, by decide⟩

/-- Witness for claim C5 (amended): a table headed "Random Notes"
contributes nothing. -/
theorem processTable_unknown_discards_witness :
    processTable emptySections [⟨true, "Random Notes", []⟩, ⟨false, "", ["A", "B"]⟩]
      = emptySections := by
  exact processTable_unknown_discards _ _ (by decide) (by decide) (by decide)

/-- Claim C6 (amended): under the dominant mapping policy (variants A, B
and C share this extraction code), a document with one table headed
"OEM Part Number Cross References" followed by the two-cell row
("ABC-100", "XYZ-9") yields the oem_reference mapping with the key
trimmed, lowercased and space-underscored and the value merely trimmed;
variant D applies a different policy, see the counterexample. -/
theorem extractSections_oem_scenario :
    extractSections [oemScenarioRows] = ⟨[("abc-100", "XYZ-9")], [], []⟩ := by
  decide

/-- Claim C6 counterexample: variant D, also cited by the claim, only
trims the row key — "ABC-100" stays uppercase, so the mapping is not the
claimed one — and emits the section as a serialised HTML table string
rather than a key-value mapping. -/
theorem oemScenario_variantD_counterexample :
    (extractSectionsD [oemScenarioRowsD]).oem_reference = [("ABC-100", "XYZ-9")] ∧
    (extractSectionsD [oemScenarioRowsD]).oem_reference ≠ [("abc-100", "XYZ-9")] ∧
    createTableHTML (extractSectionsD [oemScenarioRowsD]).oem_reference =
      "<table border=\"1\"><tr><td>ABC-100</td><td>XYZ-9</td></tr></table>" := by
  refine ⟨by decide, by decide, by decide⟩

end Scraper
